import Mathlib

/-!
# Verification of the `reading` plan core

A shallow embedding of `src/plan.rs` (types from `src/serde_types.in.rs`):
the `Entry`/`Plan` data model, the cursor operations `next`/`previous`/
`set_cyclic` and the plain-text parser/writer `from_text`/`to_text`,
together with theorems settling the specification claims.

Rust's `i32 % i32` is truncated remainder, modelled by `Int.tmod`; the
`usize`/`i32` values involved stay far below the machine bounds on valid
plans, so positions are modelled as `Nat`/`Int`.
-/

namespace Reading

/-- `src/serde_types.in.rs`: a single entry of a reading plan. -/
structure Entry where
  title : String
  description : String
  deriving DecidableEq, Repr

/-- `src/serde_types.in.rs`: a reading plan. `current_entry` is a 0-based
index which may equal `entries.len()` to represent "end of plan". -/
structure Plan where
  name : String
  cyclic : Bool
  current_entry : Nat
  entries : List Entry
  deriving DecidableEq, Repr

/-- `Entry::with_description` in `src/plan.rs`. -/
def Entry.with_description (title description : String) : Entry :=
  { title := title, description := description }

/-- `Entry::new` in `src/plan.rs`: a title and no description. -/
def Entry.new (title : String) : Entry :=
  Entry.with_description title ""

/-- `Plan::from_entries` in `src/plan.rs`: acyclic, positioned at 0,
entries taken as given (no validation). -/
def Plan.from_entries (name : String) (entries : List Entry) : Plan :=
  { name := name, cyclic := false, current_entry := 0, entries := entries }

/-- `Plan::len` in `src/plan.rs`. -/
def Plan.len (p : Plan) : Nat :=
  p.entries.length

/-- `Plan::next` in `src/plan.rs`. Rust `%` on `i32` is `Int.tmod`.
(Rust panics on `% 0`; see `Plan.nextChecked` for the panic-aware
version. `Int.tmod _ 0` makes this total; the two agree on non-empty
plans, and the claims only concern non-empty plans.) -/
def Plan.next (p : Plan) (inc : Int) : Plan :=
  let new_entry : Int := (p.current_entry : Int) + inc
  let n_entries : Int := (p.entries.length : Int)
  let adjusted : Int :=
    if new_entry < 0 then
      if p.cyclic then Int.tmod new_entry n_entries + n_entries else 0
    else if new_entry ≥ n_entries then
      if p.cyclic then Int.tmod new_entry n_entries else n_entries
    else new_entry
  { p with current_entry := adjusted.toNat }

/-- `Plan::previous` in `src/plan.rs`: `next` with the negated increment. -/
def Plan.previous (p : Plan) (dec : Int) : Plan :=
  p.next (-dec)

/-- `Plan::set_cyclic` in `src/plan.rs`. -/
def Plan.set_cyclic (p : Plan) (cyclic : Bool) : Plan :=
  let p := { p with cyclic := cyclic }
  if p.cyclic ∧ p.current_entry = p.len then { p with current_entry := 0 } else p

/-- `Plan::current_entry_number` in `src/plan.rs`: 1-based position. -/
def Plan.current_entry_number (p : Plan) : Nat :=
  p.current_entry + 1

/-- `Plan::is_ended` in `src/plan.rs`. -/
def Plan.is_ended (p : Plan) : Bool :=
  p.current_entry_number > p.len

/-- `Plan::current_entry` (the accessor) in `src/plan.rs`:
`entries.get(current_entry)`. -/
def Plan.currentEntry (p : Plan) : Option Entry :=
  p.entries.get? p.current_entry

/-- The error kinds of `src/lib.rs` relevant to the core
(`ErrorKind::TextFormat` and `ErrorKind::Io`). In the pure model the
input is a string, so `io` is never produced. -/
inductive PlanError where
  | textFormat (msg : String)
  | io (msg : String)
  deriving DecidableEq, Repr

/-- Rust `char::is_whitespace`: the Unicode `White_Space` property. -/
def rustIsWhitespace (c : Char) : Bool :=
  (0x09 ≤ c.toNat ∧ c.toNat ≤ 0x0D) ∨ c.toNat = 0x20 ∨ c.toNat = 0x85 ∨
    c.toNat = 0xA0 ∨ c.toNat = 0x1680 ∨ (0x2000 ≤ c.toNat ∧ c.toNat ≤ 0x200A) ∨
    c.toNat = 0x2028 ∨ c.toNat = 0x2029 ∨ c.toNat = 0x202F ∨
    c.toNat = 0x205F ∨ c.toNat = 0x3000

/-- Rust `str::trim_right` on a line of characters. -/
def trimRight (l : List Char) : List Char :=
  (l.reverse.dropWhile rustIsWhitespace).reverse

/-- Rust `str::trim_left` on a line of characters. -/
def trimLeft (l : List Char) : List Char :=
  l.dropWhile rustIsWhitespace

/-- Rust `BufRead::lines`: split the input at `'\n'`; the final fragment
is yielded only when non-empty (so a trailing newline produces no extra
empty line, and empty input produces no lines). `lines` also strips a
trailing `'\r'` from each line, which `from_text`'s immediate
`trim_right` subsumes, so it is not modelled separately. -/
def rustLines : List Char → List (List Char)
  | [] => []
  | c :: cs =>
    if c = '\n' then [] :: rustLines cs
    else
      match rustLines cs with
      | [] => [[c]]
      | l :: ls => (c :: l) :: ls

/-- The body of the `for (n, l) in r.lines().enumerate()` loop of
`Plan::from_text` in `src/plan.rs`, acting on one line. The state is the
pair of the finished `entries` and the optional `current_entry` in
progress; `n` is the 0-based line number. -/
def fromTextStep (n : Nat) (line : List Char) (st : List Entry × Option Entry) :
    Except PlanError (List Entry × Option Entry) :=
  let l := trimRight line
  match l with
  | [] =>
    match st with
    | (es, some e) => .ok (es ++ [e], none)
    | (es, none) => .ok (es, none)
  | c :: _ =>
    if rustIsWhitespace c then
      match st with
      | (es, some e) =>
        let d := if e.description.isEmpty then e.description else e.description ++ " "
        .ok (es, some { e with description := d ++ String.mk (trimLeft l) })
      | (_, none) =>
        .error (.textFormat
          ("description on line " ++ toString (n + 1) ++ " does not correspond to any entry"))
    else
      match st with
      | (es, some e) => .ok (es ++ [e], some (Entry.new (String.mk l)))
      | (es, none) => .ok (es, some (Entry.new (String.mk l)))

/-- The line loop of `Plan::from_text`, over the remaining lines. -/
def fromTextLoop (n : Nat) (lines : List (List Char))
    (st : List Entry × Option Entry) : Except PlanError (List Entry × Option Entry) :=
  match lines with
  | [] => .ok st
  | line :: rest =>
    match fromTextStep n line st with
    | .error e => .error e
    | .ok st' => fromTextLoop (n + 1) rest st'

/-- `Plan::from_text` in `src/plan.rs`: parse the plain-text plan format.
The input byte stream is modelled as a string (pure, so the `Io` error
path of the Rust code cannot arise). -/
def Plan.from_text (name : String) (input : String) : Except PlanError Plan :=
  match fromTextLoop 0 (rustLines input.data) ([], none) with
  | .error e => .error e
  | .ok (es, cur) =>
    let entries := match cur with | some e => es ++ [e] | none => es
    if entries.isEmpty then .error (.textFormat "cannot construct an empty plan")
    else .ok (Plan.from_entries name entries)

deriving instance DecidableEq for Except

/-- The lines `Plan::to_text` in `src/plan.rs` writes for one entry:
the title, then (only when the description is non-empty) four spaces
followed by the description. -/
def Entry.toTextLines (e : Entry) : List String :=
  [e.title] ++ (if e.description.isEmpty then [] else ["    " ++ e.description])

/-- `Plan::to_text` in `src/plan.rs`: each line written with `writeln!`,
hence `'\n'`-terminated. The output byte sink is modelled as the
resulting string (pure, so the `Io` error path cannot arise). -/
def Plan.to_text (p : Plan) : String :=
  String.join (((p.entries.map Entry.toTextLines).flatten).map (fun l => l ++ "\n"))

/-- The character lists of the lines an entry contributes to the text
output (the title line, then the indented description line when the
description is non-empty). -/
def entryLinesData (e : Entry) : List (List Char) :=
  (Entry.toTextLines e).map String.data

/-- Well-formedness of an entry with respect to the plain-text format:
the title is non-empty, starts with a non-whitespace character, contains
no newline and carries no trailing whitespace; the description contains
no newline and carries no leading or trailing whitespace (an empty
description satisfies all three vacuously). Exactly the entries the
parser itself can produce. -/
def WFEntry (e : Entry) : Bool :=
  (match e.title.data with
    | [] => false
    | c :: _ => !rustIsWhitespace c) &&
  e.title.data.all (fun c => !(c = '\n')) &&
  decide (trimRight e.title.data = e.title.data) &&
  e.description.data.all (fun c => !(c = '\n')) &&
  decide (trimRight e.description.data = e.description.data) &&
  decide (trimLeft e.description.data = e.description.data)

/-- The parser state reached after feeding the lines of the given
entries to the line loop, starting from state `(es, cur)`: each entry
first flushes the previous in-progress entry, and stays in progress
itself. -/
def finalSt (es : List Entry) (cur : Option Entry) : List Entry → List Entry × Option Entry
  | [] => (es, cur)
  | e :: rest => finalSt (es ++ cur.toList) (some e) rest

/-- Whether every input line is blank after right-trimming (the
condition under which the parser collects zero entries, absent an
orphan description line). -/
def linesAllBlank (ls : List (List Char)) : Bool :=
  ls.all (fun l => (trimRight l).isEmpty)

/-- The 0-based index of the first orphan description line: a line that
is non-blank after right-trimming, starts with whitespace, and arrives
while no entry is in progress (`inProg` tracks whether one is). -/
def firstOrphan : Nat → Bool → List (List Char) → Option Nat
  | _, _, [] => none
  | n, inProg, l :: rest =>
    match trimRight l with
    | [] => firstOrphan (n + 1) false rest
    | c :: _ =>
      if rustIsWhitespace c then
        if inProg then firstOrphan (n + 1) true rest else some n
      else firstOrphan (n + 1) true rest

/-! ## Behaviour of one parser step on each shape of line -/

theorem fromTextStep_blank (n : Nat) (line : List Char) (st : List Entry × Option Entry)
    (h : trimRight line = []) :
    fromTextStep n line st = .ok (st.1 ++ st.2.toList, none) := by
  obtain ⟨es, cur⟩ := st
  cases cur <;> simp [fromTextStep, h]

theorem fromTextStep_title (n : Nat) (line : List Char) (st : List Entry × Option Entry)
    (c : Char) (rest : List Char) (h : trimRight line = c :: rest)
    (hc : rustIsWhitespace c = false) :
    fromTextStep n line st =
      .ok (st.1 ++ st.2.toList, some (Entry.new (String.mk (c :: rest)))) := by
  obtain ⟨es, cur⟩ := st
  cases cur <;> simp [fromTextStep, h, hc]

theorem fromTextStep_desc_some (n : Nat) (line : List Char) (es : List Entry) (e : Entry)
    (c : Char) (rest : List Char) (h : trimRight line = c :: rest)
    (hc : rustIsWhitespace c = true) :
    fromTextStep n line (es, some e) =
      .ok (es, some (Entry.with_description e.title
        ((if e.description.isEmpty then e.description else e.description ++ " ") ++
          String.mk (trimLeft (c :: rest))))) := by
  simp [fromTextStep, Entry.with_description, h, hc]

theorem fromTextStep_desc_none (n : Nat) (line : List Char) (es : List Entry)
    (c : Char) (rest : List Char) (h : trimRight line = c :: rest)
    (hc : rustIsWhitespace c = true) :
    fromTextStep n line (es, none) =
      .error (.textFormat
        ("description on line " ++ toString (n + 1) ++
          " does not correspond to any entry")) := by
  simp [fromTextStep, h, hc]

/-! ## Infrastructure: strings, trimming, line splitting -/

theorem string_mk_data (s : String) : String.mk s.data = s :=
  rfl

theorem string_empty_append (s : String) : "" ++ s = s := by
  cases s
  rfl

theorem trimLeft_cons_ws (c : Char) (l : List Char) (hc : rustIsWhitespace c = true) :
    trimLeft (c :: l) = trimLeft l := by
  unfold trimLeft
  rw [List.dropWhile_cons, if_pos hc]

theorem trimRight_append_of_self (xs l : List Char) (hne : l ≠ [])
    (hl : trimRight l = l) : trimRight (xs ++ l) = xs ++ l := by
  unfold trimRight at hl ⊢
  have hdrop : l.reverse.dropWhile rustIsWhitespace = l.reverse := by
    have h1 := congrArg List.reverse hl
    simpa using h1
  rw [List.reverse_append]
  cases hrev : l.reverse with
  | nil => exact absurd (by simpa using congrArg List.reverse hrev) hne
  | cons y ys =>
    rw [hrev] at hdrop
    have hy : ¬rustIsWhitespace y = true := by
      have h2 := List.dropWhile_eq_self_iff.mp hdrop
      simpa using h2 (by simp)
    rw [List.cons_append, List.dropWhile_cons, if_neg hy, ← List.cons_append, ← hrev,
      ← List.reverse_append, List.reverse_reverse]

theorem rustLines_append_newline : ∀ (xs ys : List Char), '\n' ∉ xs →
    rustLines (xs ++ '\n' :: ys) = xs :: rustLines ys
  | [], ys, _ => by simp [rustLines]
  | x :: xs, ys, h => by
    simp only [List.mem_cons, not_or] at h
    obtain ⟨hx, hxs⟩ := h
    simp only [List.cons_append, rustLines, List.append_eq]
    rw [if_neg (fun e => hx e.symm), rustLines_append_newline xs ys hxs]

theorem rustLines_flatten : ∀ (ls : List (List Char)), (∀ l ∈ ls, '\n' ∉ l) →
    rustLines ((ls.map (fun l => l ++ ['\n'])).flatten) = ls
  | [], _ => rfl
  | l :: ls, h => by
    simp only [List.map_cons, List.flatten_cons, List.append_assoc, List.singleton_append]
    rw [rustLines_append_newline _ _ (h l (List.mem_cons_self l ls)),
      rustLines_flatten ls (fun x hx => h x (List.mem_cons_of_mem _ hx))]

theorem fromTextLoop_append : ∀ (xs ys : List (List Char)) (n : Nat)
    (st : List Entry × Option Entry),
    fromTextLoop n (xs ++ ys) st =
      (fromTextLoop n xs st).bind (fun st' => fromTextLoop (n + xs.length) ys st')
  | [], ys, n, st => by simp [fromTextLoop, Except.bind]
  | x :: xs, ys, n, st => by
    simp only [List.cons_append, fromTextLoop]
    cases hstep : fromTextStep n x st with
    | error e => rfl
    | ok st' =>
      dsimp only
      simp only [List.append_eq]
      rw [fromTextLoop_append xs ys (n + 1) st']
      simp only [List.length_cons]
      have harith : n + 1 + xs.length = n + (xs.length + 1) := by omega
      rw [harith]

theorem fromTextLoop_entry (e : Entry) (he : WFEntry e = true) (n : Nat) (es : List Entry)
    (cur : Option Entry) :
    fromTextLoop n (entryLinesData e) (es, cur) = .ok (es ++ cur.toList, some e) := by
  simp only [WFEntry, Bool.and_eq_true, decide_eq_true_eq] at he
  obtain ⟨⟨⟨⟨⟨ht0, htn⟩, htr⟩, hdn⟩, hdr⟩, hdl⟩ := he
  cases htitle : e.title.data with
  | nil => rw [htitle] at ht0; exact absurd ht0 (by simp)
  | cons c cs =>
    rw [htitle] at ht0
    simp only [Bool.not_eq_eq_eq_not, Bool.not_true] at ht0
    have htr2 : trimRight e.title.data = c :: cs := htr.trans htitle
    have htitle_eq : Entry.new (String.mk (c :: cs)) = Entry.new e.title := by
      rw [← htitle, string_mk_data]
    by_cases hd : e.description.isEmpty = true
    · have hdesc : e.description = "" := (String.isEmpty_iff _).mp hd
      have hlines : entryLinesData e = [e.title.data] := by
        simp [entryLinesData, Entry.toTextLines, hd]
      rw [hlines]
      simp only [fromTextLoop]
      rw [fromTextStep_title n e.title.data (es, cur) c cs htr2 ht0]
      dsimp only
      have heq : Entry.new (String.mk (c :: cs)) = e := by
        rw [htitle_eq]
        show Entry.with_description e.title "" = e
        rw [← hdesc]
        rfl
      rw [heq]
    · have hdne : e.description.data ≠ [] := by
        intro hnil
        apply hd
        rw [String.isEmpty_iff, ← string_mk_data e.description, hnil]
      have hlines : entryLinesData e =
          [e.title.data, ("    " ++ e.description).data] := by
        simp [entryLinesData, Entry.toTextLines, hd]
      have hline2 : ("    " ++ e.description).data =
          ' ' :: ' ' :: ' ' :: ' ' :: e.description.data := by
        rw [String.data_append]
        rfl
      rw [hlines]
      simp only [fromTextLoop]
      rw [fromTextStep_title n e.title.data (es, cur) c cs htr2 ht0]
      dsimp only
      have htrim2 : trimRight (("    " ++ e.description).data) =
          ' ' :: (' ' :: ' ' :: ' ' :: e.description.data) := by
        rw [hline2]
        have := trimRight_append_of_self [' ', ' ', ' ', ' '] e.description.data hdne hdr
        simpa using this
      rw [fromTextStep_desc_some (n + 1) _ _ _ ' ' (' ' :: ' ' :: ' ' :: e.description.data)
        htrim2 (by decide)]
      dsimp only
      have hleft : trimLeft (' ' :: ' ' :: ' ' :: ' ' :: e.description.data) =
          e.description.data := by
        rw [trimLeft_cons_ws _ _ (by decide), trimLeft_cons_ws _ _ (by decide),
          trimLeft_cons_ws _ _ (by decide), trimLeft_cons_ws _ _ (by decide), hdl]
      have hfinal : Entry.with_description (Entry.new (String.mk (c :: cs))).title
          ((if (Entry.new (String.mk (c :: cs))).description.isEmpty then
              (Entry.new (String.mk (c :: cs))).description
            else (Entry.new (String.mk (c :: cs))).description ++ " ") ++
            String.mk (trimLeft (' ' :: ' ' :: ' ' :: ' ' :: e.description.data))) = e := by
        rw [hleft, htitle_eq]
        show Entry.with_description e.title ("" ++ String.mk e.description.data) = e
        rw [string_mk_data, string_empty_append]
        rfl
      rw [hfinal]

theorem fromTextLoop_entries : ∀ (l : List Entry), (∀ e ∈ l, WFEntry e = true) →
    ∀ (n : Nat) (es : List Entry) (cur : Option Entry),
    fromTextLoop n ((l.map entryLinesData).flatten) (es, cur) = .ok (finalSt es cur l)
  | [], _, n, es, cur => rfl
  | e :: rest, h, n, es, cur => by
    simp only [List.map_cons, List.flatten_cons]
    rw [fromTextLoop_append, fromTextLoop_entry e (h e (List.mem_cons_self e rest)) n es cur]
    show fromTextLoop (n + (entryLinesData e).length) ((rest.map entryLinesData).flatten)
      (es ++ cur.toList, some e) = _
    rw [fromTextLoop_entries rest (fun x hx => h x (List.mem_cons_of_mem _ hx)) _ _ _]
    rfl

theorem finalSt_entries : ∀ (l : List Entry) (es : List Entry) (cur : Option Entry),
    (finalSt es cur l).1 ++ (finalSt es cur l).2.toList = es ++ cur.toList ++ l
  | [], es, cur => by simp [finalSt]
  | e :: rest, es, cur => by
    simp only [finalSt]
    rw [finalSt_entries rest (es ++ cur.toList) (some e)]
    simp

theorem to_text_data (p : Plan) :
    (Plan.to_text p).data =
      ((((p.entries.map Entry.toTextLines).flatten).map String.data).map
        (fun l => l ++ ['\n'])).flatten := by
  simp only [Plan.to_text, String.data_join, List.map_map]
  have hfun : (String.data ∘ fun l => l ++ "\n") =
      ((fun l => l ++ ['\n']) ∘ String.data) := by
    funext s
    simp only [Function.comp_apply, String.data_append]
  rw [hfun, ← List.map_map]

theorem entry_lines_no_newline (e : Entry) (he : WFEntry e = true) :
    ∀ l ∈ entryLinesData e, '\n' ∉ l := by
  simp only [WFEntry, Bool.and_eq_true, decide_eq_true_eq, List.all_eq_true] at he
  obtain ⟨⟨⟨⟨⟨ht0, htn⟩, htr⟩, hdn⟩, hdr⟩, hdl⟩ := he
  have htn' : '\n' ∉ e.title.data := fun hmem => by simpa using htn '\n' hmem
  have hdn' : '\n' ∉ e.description.data := fun hmem => by simpa using hdn '\n' hmem
  intro l hl
  by_cases hd : e.description.isEmpty = true
  · have hlines : entryLinesData e = [e.title.data] := by
      simp [entryLinesData, Entry.toTextLines, hd]
    rw [hlines] at hl
    simp only [List.mem_singleton] at hl
    subst hl
    exact htn'
  · have hlines : entryLinesData e = [e.title.data, ("    " ++ e.description).data] := by
      simp [entryLinesData, Entry.toTextLines, hd]
    have hline2 : ("    " ++ e.description).data =
        ' ' :: ' ' :: ' ' :: ' ' :: e.description.data := by
      rw [String.data_append]
      rfl
    rw [hlines] at hl
    simp only [List.mem_cons, List.not_mem_nil, or_false] at hl
    rcases hl with h1 | h2
    · subst h1
      exact htn'
    · subst h2
      rw [hline2]
      simp only [List.mem_cons, not_or]
      exact ⟨by decide, by decide, by decide, by decide, hdn'⟩

theorem fromTextLoop_orphan_some : ∀ (ls : List (List Char)) (n : Nat) (es : List Entry)
    (cur : Option Entry) (m : Nat), firstOrphan n cur.isSome ls = some m →
    fromTextLoop n ls (es, cur) =
      .error (.textFormat
        ("description on line " ++ toString (m + 1) ++ " does not correspond to any entry"))
  | [], n, es, cur, m, h => by simp [firstOrphan] at h
  | l :: rest, n, es, cur, m, h => by
    simp only [firstOrphan] at h
    simp only [fromTextLoop]
    cases htrim : trimRight l with
    | nil =>
      rw [htrim] at h
      rw [fromTextStep_blank n l (es, cur) htrim]
      exact fromTextLoop_orphan_some rest (n + 1) (es ++ cur.toList) none m h
    | cons c cs =>
      rw [htrim] at h
      dsimp only at h
      by_cases hc : rustIsWhitespace c = true
      · rw [if_pos hc] at h
        cases cur with
        | some e =>
          simp only [Option.isSome_some, if_true] at h
          rw [fromTextStep_desc_some n l es e c cs htrim hc]
          exact fromTextLoop_orphan_some rest (n + 1) es _ m h
        | none =>
          simp only [Option.isSome_none] at h
          rw [if_neg (by simp)] at h
          obtain rfl : n = m := by simpa using h
          rw [fromTextStep_desc_none n l es c cs htrim hc]
      · rw [if_neg hc] at h
        rw [fromTextStep_title n l (es, cur) c cs htrim (by simpa using hc)]
        exact fromTextLoop_orphan_some rest (n + 1) (es ++ cur.toList) _ m h

theorem fromTextLoop_orphan_none : ∀ (ls : List (List Char)) (n : Nat) (es : List Entry)
    (cur : Option Entry), firstOrphan n cur.isSome ls = none →
    ∃ st', fromTextLoop n ls (es, cur) = .ok st' ∧
      (st'.1 ++ st'.2.toList = [] ↔ (es ++ cur.toList = [] ∧ linesAllBlank ls = true))
  | [], n, es, cur, _ => ⟨(es, cur), rfl, by simp [linesAllBlank]⟩
  | l :: rest, n, es, cur, h => by
    simp only [firstOrphan] at h
    simp only [fromTextLoop]
    cases htrim : trimRight l with
    | nil =>
      rw [htrim] at h
      rw [fromTextStep_blank n l (es, cur) htrim]
      obtain ⟨st', hok, hiff⟩ :=
        fromTextLoop_orphan_none rest (n + 1) (es ++ cur.toList) none h
      refine ⟨st', hok, ?_⟩
      rw [hiff]
      simp [linesAllBlank, htrim]
    | cons c cs =>
      rw [htrim] at h
      dsimp only at h
      have hblank : linesAllBlank (l :: rest) = false := by
        simp [linesAllBlank, htrim]
      by_cases hc : rustIsWhitespace c = true
      · rw [if_pos hc] at h
        cases cur with
        | none =>
          simp only [Option.isSome_none] at h
          rw [if_neg (by simp)] at h
          simp at h
        | some e =>
          simp only [Option.isSome_some, if_true] at h
          rw [fromTextStep_desc_some n l es e c cs htrim hc]
          obtain ⟨st', hok, hiff⟩ := fromTextLoop_orphan_none rest (n + 1) es
            (some (Entry.with_description e.title
              ((if e.description.isEmpty then e.description else e.description ++ " ") ++
                String.mk (trimLeft (c :: cs))))) h
          refine ⟨st', hok, ?_⟩
          rw [hiff]
          simp [hblank]
      · rw [if_neg hc] at h
        rw [fromTextStep_title n l (es, cur) c cs htrim (by simpa using hc)]
        obtain ⟨st', hok, hiff⟩ := fromTextLoop_orphan_none rest (n + 1) (es ++ cur.toList)
          (some (Entry.new (String.mk (c :: cs)))) h
        refine ⟨st', hok, ?_⟩
        rw [hiff]
        simp [hblank]

theorem fromTextLoop_error_textFormat (ls : List (List Char)) (n : Nat) (es : List Entry)
    (cur : Option Entry) (e : PlanError) (h : fromTextLoop n ls (es, cur) = .error e) :
    ∃ msg, e = .textFormat msg := by
  cases horph : firstOrphan n cur.isSome ls with
  | some m =>
    rw [fromTextLoop_orphan_some ls n es cur m horph] at h
    exact ⟨_, (by simpa using h.symm)⟩
  | none =>
    obtain ⟨st', hok, _⟩ := fromTextLoop_orphan_none ls n es cur horph
    rw [hok] at h
    exact absurd h (by simp)

/-! ## Claim theorems: the cursor engine -/

/-- C1: the claim says a cyclic `next` always lands on the true
mathematical modulo `(current + delta) mod N`, in `[0, N)`. The code
violates this: on a cyclic 1-entry plan at position 0, `next(-1)`
computes `-1 % 1 + 1 = 1`, landing on the out-of-range ended sentinel
`N = 1`, while the true modulo `emod (0 + -1) 1` is `0`. -/
theorem C1_cyclic_next_mod_bug :
    (((Plan.from_entries "p" [Entry.new "A"]).set_cyclic true).next (-1)).current_entry = 1 ∧
    Int.emod (((((Plan.from_entries "p" [Entry.new "A"]).set_cyclic true).current_entry : Int))
      + (-1)) 1 = 0 := by
  decide

/-- C2 counterexample: the claim says an empty entry list is a
construction error on either construction path, but `Plan::from_entries`
performs no emptiness check and exposes a `Plan` with zero entries. -/
theorem C2_counterexample :
    (Plan.from_entries "p" []).entries = [] ∧ (Plan.from_entries "p" []).len = 0 :=
  ⟨rfl, rfl⟩

/-- C2 amended: `from_text` never returns a plan with an empty entry
list, while `from_entries` takes the given list verbatim with no
emptiness validation (so only the text path enforces non-emptiness). -/
theorem C2_nonempty_amended :
    (∀ name input p, Plan.from_text name input = .ok p → p.entries ≠ []) ∧
    (∀ name es, (Plan.from_entries name es).entries = es) := by
  constructor
  · intro name input p h
    unfold Plan.from_text at h
    cases hl : fromTextLoop 0 (rustLines input.data) ([], none) with
    | error e => rw [hl] at h; exact absurd h (by simp)
    | ok st =>
      obtain ⟨es, cur⟩ := st
      rw [hl] at h
      dsimp at h
      split at h
      · exact absurd h (by simp)
      · rename_i hne
        simp only [Except.ok.injEq] at h
        subst h
        simpa [Plan.from_entries, List.isEmpty_iff] using hne
  · intro name es
    rfl

/-- C2 amended, witnessed at a concrete input: parsing the one-line text
`"A"` succeeds, and the resulting entry list is non-empty. -/
theorem C2_nonempty_amended_witness :
    Plan.from_text "n" "A" = .ok (Plan.from_entries "n" [Entry.new "A"]) ∧
    (Plan.from_entries "n" [Entry.new "A"]).entries ≠ [] :=
  ⟨by decide, C2_nonempty_amended.1 "n" "A" (Plan.from_entries "n" [Entry.new "A"]) (by decide)⟩

/-- C3: the claim says the ended sentinel `current_entry == N` is
unreachable while cyclic. The code violates this: on a cyclic 2-entry
plan at position 0, `next(-2)` computes `-2 % 2 + 2 = 2 = N`, so the
plan is simultaneously cyclic and ended. -/
theorem C3_sentinel_reachable_bug :
    (((Plan.from_entries "p" [Entry.new "A", Entry.new "B"]).set_cyclic true).next
        (-2)).cyclic = true ∧
    (((Plan.from_entries "p" [Entry.new "A", Entry.new "B"]).set_cyclic true).next
        (-2)).current_entry =
      (((Plan.from_entries "p" [Entry.new "A", Entry.new "B"]).set_cyclic true).next
        (-2)).len ∧
    (((Plan.from_entries "p" [Entry.new "A", Entry.new "B"]).set_cyclic true).next
        (-2)).is_ended = true := by
  decide

/-- C9: `set_cyclic` always installs the given flag and never touches
the entries or the name; switching to cyclic while at the ended sentinel
resets the position to `0` (1-based number `1`); in any non-ended state,
and always when switching to acyclic, the position is unchanged. -/
theorem C9_set_cyclic (p : Plan) (b : Bool) :
    ((p.set_cyclic b).cyclic = b ∧ (p.set_cyclic b).entries = p.entries ∧
      (p.set_cyclic b).name = p.name) ∧
    (p.current_entry = p.len → (p.set_cyclic true).current_entry = 0 ∧
      (p.set_cyclic true).current_entry_number = 1) ∧
    (p.current_entry ≠ p.len → (p.set_cyclic b).current_entry = p.current_entry) ∧
    (p.set_cyclic false).current_entry = p.current_entry := by
  refine ⟨⟨?_, ?_, ?_⟩, ?_, ?_, ?_⟩ <;>
    simp [Plan.set_cyclic, Plan.current_entry_number, Plan.len] <;>
    split_ifs <;> simp_all [Plan.len]

/-- C9 witnessed: switching a 1-entry plan stuck at the ended sentinel
to cyclic resets it to position `0`; switching a non-ended plan to
cyclic leaves the position at `0`. -/
theorem C9_set_cyclic_witness :
    ((((Plan.from_entries "w" [Entry.new "A"]).next 1).set_cyclic true).current_entry = 0 ∧
      (((Plan.from_entries "w" [Entry.new "A"]).next 1).set_cyclic
        true).current_entry_number = 1) ∧
    ((Plan.from_entries "w" [Entry.new "A", Entry.new "B"]).set_cyclic true).current_entry =
      (Plan.from_entries "w" [Entry.new "A", Entry.new "B"]).current_entry :=
  ⟨(C9_set_cyclic ((Plan.from_entries "w" [Entry.new "A"]).next 1) true).2.1 (by decide),
   (C9_set_cyclic (Plan.from_entries "w" [Entry.new "A", Entry.new "B"]) true).2.2.1
     (by decide)⟩

/-- C10: `previous(delta)` is definitionally `next(-delta)`, so the two
resulting plan states are identical for every plan and every delta. -/
theorem C10_previous_eq_next_neg (p : Plan) (d : Int) : p.previous d = p.next (-d) :=
  rfl

/-! ## Claim theorems: the text format -/

/-- C8: an indented line reaching an in-progress entry appends its
left-trimmed content to the description, preceded by a single space
exactly when the description is already non-empty; and the spec's
six-line example parses to the three entries
`("Entry 1","Description")`, `("Entry 2","Description")`,
`("Entry 3","")`. -/
theorem C8_description_join :
    (∀ (n : Nat) (line : List Char) (es : List Entry) (e : Entry) (c : Char)
      (rest : List Char), trimRight line = c :: rest → rustIsWhitespace c = true →
      fromTextStep n line (es, some e) =
        .ok (es, some (Entry.with_description e.title
          ((if e.description.isEmpty then e.description else e.description ++ " ") ++
            String.mk (trimLeft (c :: rest)))))) ∧
    Plan.from_text "t" "Entry 1\n    Description\nEntry 2\n    Description\n\nEntry 3" =
      .ok (Plan.from_entries "t"
        [Entry.with_description "Entry 1" "Description",
         Entry.with_description "Entry 2" "Description",
         Entry.new "Entry 3"]) :=
  ⟨fun n line es e c rest h hc => fromTextStep_desc_some n line es e c rest h hc, by decide⟩

/-- C8 witnessed on the concrete line `" d"` reaching the in-progress
entry `("T","x")`: the description becomes `"x d"` (single joining
space, continuation left-trimmed). -/
theorem C8_description_join_witness :
    trimRight [' ', 'd'] = ' ' :: ['d'] ∧ rustIsWhitespace ' ' = true ∧
    fromTextStep 0 [' ', 'd'] ([], some (Entry.with_description "T" "x")) =
      .ok ([], some (Entry.with_description "T" "x d")) := by
  refine ⟨by decide, by decide, ?_⟩
  have h := C8_description_join.1 0 [' ', 'd'] [] (Entry.with_description "T" "x") ' ' ['d']
    (by decide) (by decide)
  rw [h]
  decide

/-- C4 counterexample: the claim quantifies over every plan, but a plan
whose entry title carries trailing whitespace (allowed by
`from_entries`, which does not validate) does not round-trip: the parser
right-trims the written line, so the title `"x "` comes back as `"x"`. -/
theorem C4_counterexample :
    Plan.from_text "p" (Plan.to_text (Plan.from_entries "p" [Entry.new "x "])) =
      .ok (Plan.from_entries "p" [Entry.new "x"]) ∧
    [Entry.new "x"] ≠ [Entry.new "x "] := by
  constructor
  · decide
  · decide

/-- C4 amended: for every plan whose entries are well-formed for the
text format (`WFEntry`: non-empty title starting with a non-whitespace
character, no newline and no trailing whitespace in the title, and a
description with no newline and no leading or trailing whitespace) and
whose entry list is non-empty, writing with `to_text` and parsing back
with `from_text` recovers exactly the original ordered entry list (in a
freshly constructed plan: acyclic, position 0 — cyclic and the position
are not carried by the format). -/
theorem C4_roundtrip_amended (name : String) (p : Plan)
    (hwf : ∀ e ∈ p.entries, WFEntry e = true) (hne : p.entries ≠ []) :
    Plan.from_text name (Plan.to_text p) = .ok (Plan.from_entries name p.entries) := by
  have hnonl : ∀ l ∈ ((p.entries.map Entry.toTextLines).flatten).map String.data,
      '\n' ∉ l := by
    intro l hl
    simp only [List.mem_map, List.mem_flatten] at hl
    obtain ⟨s, ⟨lines, ⟨⟨ent, hent, hlines⟩, hs⟩⟩, hdata⟩ := hl
    subst hdata
    subst hlines
    have := entry_lines_no_newline ent (hwf ent hent)
    exact this s.data (List.mem_map_of_mem String.data hs)
  have hlines : rustLines (Plan.to_text p).data = (p.entries.map entryLinesData).flatten := by
    rw [to_text_data, rustLines_flatten _ hnonl, List.map_flatten, List.map_map]
    rfl
  unfold Plan.from_text
  rw [hlines, fromTextLoop_entries p.entries hwf 0 [] none]
  have hfin := finalSt_entries p.entries [] none
  cases hst : finalSt [] none p.entries with
  | mk es2 cur2 =>
    rw [hst] at hfin
    simp only [Option.toList, List.nil_append] at hfin
    cases cur2 with
    | none =>
      simp only [Option.toList, List.append_nil] at hfin
      subst hfin
      dsimp only
      rw [if_neg (by simpa [List.isEmpty_iff] using hne)]
    | some e2 =>
      dsimp only
      rw [show es2 ++ [e2] = p.entries from hfin]
      rw [if_neg (by simpa [List.isEmpty_iff] using hne)]

/-- C4 amended, witnessed on a concrete two-entry plan (one entry with
a description, one without): the round trip through the text format
returns exactly the original entries. -/
theorem C4_roundtrip_amended_witness :
    Plan.from_text "w" (Plan.to_text (Plan.from_entries "w"
      [Entry.with_description "T" "D", Entry.new "U"])) =
      .ok (Plan.from_entries "w" [Entry.with_description "T" "D", Entry.new "U"]) :=
  C4_roundtrip_amended "w"
    (Plan.from_entries "w" [Entry.with_description "T" "D", Entry.new "U"])
    (by decide) (by decide)

/-- C7: `from_text` fails exactly when every line is blank (zero entries
collected) or an orphan indented line occurs (a non-blank line starting
with whitespace while no entry is in progress); every failure is a
`textFormat` error, and in the orphan case the error message carries the
1-based number of the offending line. -/
theorem C7_textformat_errors (name input : String) :
    (∀ e, Plan.from_text name input = .error e → ∃ msg, e = PlanError.textFormat msg) ∧
    ((∃ e, Plan.from_text name input = .error e) ↔
      (linesAllBlank (rustLines input.data) = true ∨
        (firstOrphan 0 false (rustLines input.data)).isSome = true)) ∧
    (∀ m, firstOrphan 0 false (rustLines input.data) = some m →
      Plan.from_text name input =
        .error (.textFormat
          ("description on line " ++ toString (m + 1) ++
            " does not correspond to any entry"))) := by
  have third : ∀ m, firstOrphan 0 false (rustLines input.data) = some m →
      Plan.from_text name input =
        .error (.textFormat
          ("description on line " ++ toString (m + 1) ++
            " does not correspond to any entry")) := by
    intro m hm
    unfold Plan.from_text
    rw [fromTextLoop_orphan_some (rustLines input.data) 0 [] none m hm]
  refine ⟨?_, ?_, third⟩
  · intro e he
    unfold Plan.from_text at he
    cases hl : fromTextLoop 0 (rustLines input.data) ([], none) with
    | error e2 =>
      rw [hl] at he
      simp only [Except.error.injEq] at he
      subst he
      exact fromTextLoop_error_textFormat _ 0 [] none _ hl
    | ok st =>
      obtain ⟨es, cur⟩ := st
      rw [hl] at he
      dsimp only at he
      split at he
      · simp only [Except.error.injEq] at he
        exact ⟨_, he.symm⟩
      · exact absurd he (by simp)
  · constructor
    · rintro ⟨e, he⟩
      cases horph : firstOrphan 0 false (rustLines input.data) with
      | some m =>
        right
        rfl
      | none =>
        left
        obtain ⟨st2, hok, hiff⟩ :=
          fromTextLoop_orphan_none (rustLines input.data) 0 [] none horph
        unfold Plan.from_text at he
        rw [hok] at he
        obtain ⟨es, cur⟩ := st2
        dsimp only at he
        split at he
        · rename_i hempty
          cases cur with
          | some e2 => simp at hempty
          | none =>
            have hes : es = [] := by simpa [List.isEmpty_iff] using hempty
            subst hes
            exact (hiff.mp (by simp)).2
        · exact absurd he (by simp)
    · intro hdisj
      rcases hdisj with hblank | hsome
      · cases horph : firstOrphan 0 false (rustLines input.data) with
        | some m => exact ⟨_, third m horph⟩
        | none =>
          obtain ⟨st2, hok, hiff⟩ :=
            fromTextLoop_orphan_none (rustLines input.data) 0 [] none horph
          have hempty : st2.1 ++ st2.2.toList = [] := hiff.mpr (by simp [hblank])
          refine ⟨.textFormat "cannot construct an empty plan", ?_⟩
          unfold Plan.from_text
          rw [hok]
          obtain ⟨es, cur⟩ := st2
          dsimp only at hempty ⊢
          have hes : es = [] := (List.append_eq_nil.mp hempty).1
          have hcur : cur = none := by
            cases cur with
            | none => rfl
            | some e2 => simp at hempty
          subst hes
          subst hcur
          rfl
      · obtain ⟨m, hm⟩ := Option.isSome_iff_exists.mp hsome
        exact ⟨_, third m hm⟩

/-- C7 witnessed: the input `"  x\nfoo"` starts with an indented line,
its first orphan is at 0-based index 0, and parsing fails with a
`textFormat` error naming line 1. -/
theorem C7_textformat_errors_witness :
    firstOrphan 0 false (rustLines ("  x\nfoo").data) = some 0 ∧
    Plan.from_text "n" "  x\nfoo" =
      .error (.textFormat "description on line 1 does not correspond to any entry") := by
  refine ⟨by decide, ?_⟩
  have h := (C7_textformat_errors "n" "  x\nfoo").2.2 0 (by decide)
  rw [h]
  decide

end Reading
